import Mathlib

/-!
Verification of the loom firmware core (`loom.ino`): treadle-sequence editing,
the shaft state machine and step scheduler, the calibration protocol, the
EEPROM persistent store, and weaving-mode navigation.  Definitions are a
shallow embedding of the C source; theorems settle the specification claims.
-/

namespace Loom

/-! ## Global parameters (from the `#define`s) -/

def NUM_TREADLES : Nat := 16
def NUM_SHAFTS : Nat := 8
def MAX_SEQUENCE : Nat := 99
def UNUSED_SEQ : Nat := 0xff
def MAX_FILENAME : Nat := 14
def EEPROM_SIZE : Nat := 4096
/-- From `ROTATION_PERCENT = 112/2 = 56`, `STEPS_PER_ROTATION = 200*4 = 800`,
so `NOMINAL_STEPS = 56*800/100 = 448`. -/
def NOMINAL_STEPS : Int := 448

/-! ## Treadle sequence operations

The live treadle sequence is `byte treadle_sequence[MAX_SEQUENCE]`, modelled as
a `List Nat` of length `MAX_SEQUENCE`; `UNUSED_SEQ` is the unused sentinel. -/

/-- The loop body of `cleanup_treadle_sequence`: `fuel` counts the remaining
read positions (`MAX_SEQUENCE - rpos`); `wpos` is the write cursor.  Each
non-`UNUSED_SEQ` entry read at `rpos` is copied to `wpos`. -/
def cleanupAux : Nat → Nat → Nat → List Nat → List Nat × Nat
  | 0, _, wpos, buf => (buf, wpos)
  | fuel+1, rpos, wpos, buf =>
    let t := buf.getD rpos UNUSED_SEQ
    if t ≠ UNUSED_SEQ then cleanupAux fuel (rpos+1) (wpos+1) (buf.set wpos t)
    else cleanupAux fuel (rpos+1) wpos buf

/-- The function `cleanup_treadle_sequence` compacts the buffer in place (left-justifying
the non-unused entries) and returns the new buffer with `sequence_size`. -/
def cleanup_treadle_sequence (buf : List Nat) : List Nat × Nat :=
  cleanupAux MAX_SEQUENCE 0 0 buf

/-- The shifting loop of `insert_treadle_sequence`: starting at `position`,
repeatedly exchange the saved value with the buffer entry. `fuel` counts the
remaining loop iterations (`MAX_SEQUENCE - position`). -/
def insertAux : Nat → Nat → Nat → List Nat → List Nat
  | 0, _, _, buf => buf
  | fuel+1, position, saved, buf =>
    insertAux fuel (position+1) (buf.getD position UNUSED_SEQ) (buf.set position saved)

/-- The function `insert_treadle_sequence(position)` saves the entry at `position`, writes
`UNUSED_SEQ` there, then ripples the saved entries down one slot to the end of
the buffer (the last entry falls off). -/
def insert_treadle_sequence (buf : List Nat) (position : Nat) : List Nat :=
  insertAux (MAX_SEQUENCE - position - 1) (position+1) (buf.getD position UNUSED_SEQ)
    (buf.set position UNUSED_SEQ)

/-- The shifting loop of `delete_treadle_sequence`: copy each entry one slot
up; when the loop ends, write `UNUSED_SEQ` into the last slot.  `fuel` counts
the remaining loop iterations (`MAX_SEQUENCE - 1 - position`). -/
def deleteAux : Nat → Nat → List Nat → List Nat
  | 0, position, buf => buf.set position UNUSED_SEQ
  | fuel+1, position, buf =>
    deleteAux fuel (position+1) (buf.set position (buf.getD (position+1) UNUSED_SEQ))

/-- The function `delete_treadle_sequence(position)` shifts the tail up by one slot and
marks the vacated last slot unused. -/
def delete_treadle_sequence (buf : List Nat) (position : Nat) : List Nat :=
  deleteAux (MAX_SEQUENCE - 1 - position) position buf

/-- A concrete treadle-sequence buffer used to exercise `cleanup_treadle_sequence`. -/
def cleanupDemoBuf : List Nat := 5 :: UNUSED_SEQ :: 7 :: List.replicate 96 UNUSED_SEQ

/-- A concrete treadle-sequence buffer used to exercise insert/delete. -/
def editDemoBuf : List Nat := 3 :: 1 :: 4 :: 1 :: 5 :: List.replicate 94 UNUSED_SEQ

/-! ## Shaft state machine and step scheduler

`shaft_status[]` holds, per shaft, the current position, the calibrated travel
distances, and the queued signed step count (`steps_to_move`; positive = toward
UP).  The state of all shafts is modelled as a function `Nat → ShaftStatus`
(only indices < NUM_SHAFTS are meaningful). -/

inductive ShaftPos where
  | center
  | up
  | down
deriving DecidableEq

structure ShaftStatus where
  shaft_position : ShaftPos
  steps_to_down : Int
  steps_to_up : Int
  steps_to_move : Int
deriving DecidableEq

/-- Observable actions of the step scheduler: a motor-fault check
(`assert(digitalRead(MOTOR_FAULT) == HIGH)`) or one physical step pulse on one
shaft's motor. -/
inductive StepEvent where
  | faultCheck
  | stepMotor (shaft : Nat)
deriving DecidableEq

/-- The function `using_shaft` answers: does any used treadle of the (compacted) sequence tie up to
this shaft? -/
def using_shaft (tu : Nat → Nat → Bool) (seq : List Nat) (size : Nat) (shaft : Nat) : Bool :=
  (List.range size).any fun pos =>
    decide (seq.getD pos UNUSED_SEQ ≠ UNUSED_SEQ) && tu shaft (seq.getD pos UNUSED_SEQ)

/-- One scheduler pass over a single shaft: a negative count steps once toward
DOWN (incrementing), a positive count once toward UP (decrementing). -/
def step_shaft (s : ShaftStatus) : ShaftStatus :=
  if s.steps_to_move < 0 then { s with steps_to_move := s.steps_to_move + 1 }
  else if s.steps_to_move > 0 then { s with steps_to_move := s.steps_to_move - 1 }
  else s

/-- The step pulse emitted for one shaft during one pass (none if idle). -/
def shaft_step_events (k : Nat) (s : ShaftStatus) : List StepEvent :=
  if s.steps_to_move ≠ 0 then [StepEvent.stepMotor k] else []

/-- State change of one full round-robin pass of `do_steps` over all shafts. -/
def one_pass_state (st : Nat → ShaftStatus) : Nat → ShaftStatus :=
  fun k => if k < NUM_SHAFTS then step_shaft (st k) else st k

/-- Step pulses emitted by one pass, scanning `n` shafts starting at `k`. -/
def pass_trace_aux (st : Nat → ShaftStatus) : Nat → Nat → List StepEvent
  | 0, _ => []
  | n+1, k => shaft_step_events k (st k) ++ pass_trace_aux st n (k+1)

/-- Step pulses emitted by one full pass over all shafts. -/
def one_pass_trace (st : Nat → ShaftStatus) : List StepEvent :=
  pass_trace_aux st NUM_SHAFTS 0

/-- Total queued step magnitude over `n` shafts starting at `k`. -/
def totalPendingAux (st : Nat → ShaftStatus) : Nat → Nat → Nat
  | 0, _ => 0
  | n+1, k => (st k).steps_to_move.natAbs + totalPendingAux st n (k+1)

/-- Total queued step magnitude over all shafts. -/
def totalPending (st : Nat → ShaftStatus) : Nat :=
  totalPendingAux st NUM_SHAFTS 0

/-- The do-while loop of `do_steps`: passes repeat while some shaft stepped
(`step_done`); after each pass that stepped, the motor-fault line is checked
(`assert`).  `fuel` bounds the iteration count; `totalPending st + 1` always
suffices since each non-empty pass strictly decreases the total magnitude. -/
def drainFuel : Nat → (Nat → ShaftStatus) → (Nat → ShaftStatus) × List StepEvent
  | 0, st => (st, [])
  | fuel+1, st =>
    if one_pass_trace st = [] then (one_pass_state st, [])
    else
      let r := drainFuel fuel (one_pass_state st)
      (r.1, one_pass_trace st ++ StepEvent.faultCheck :: r.2)

/-- The function `do_steps` checks the motor fault at entry, then drains all queued steps
round-robin.  Returns the final shaft state and the event trace. -/
def do_steps (st : Nat → ShaftStatus) : (Nat → ShaftStatus) × List StepEvent :=
  ((drainFuel (totalPending st + 1) st).1,
    StepEvent.faultCheck :: (drainFuel (totalPending st + 1) st).2)

/-- The queueing loop of `do_treadle`: for every shaft used by the pattern,
compute `steps_to_move` from the current position and the tie-up target. -/
def do_treadle_queue (tu : Nat → Nat → Bool) (seq : List Nat) (size treadle : Nat)
    (st : Nat → ShaftStatus) : Nat → ShaftStatus := fun shaft =>
  if shaft < NUM_SHAFTS then
    if using_shaft tu seq size shaft then
      let s := st shaft
      if tu shaft treadle then
        if s.shaft_position = ShaftPos.up then
          { s with steps_to_move := -s.steps_to_down - s.steps_to_up }
        else if s.shaft_position = ShaftPos.center then
          { s with steps_to_move := -s.steps_to_down }
        else s
      else
        if s.shaft_position = ShaftPos.down then
          { s with steps_to_move := s.steps_to_down + s.steps_to_up }
        else if s.shaft_position = ShaftPos.center then
          { s with steps_to_move := s.steps_to_up }
        else s
    else st shaft
  else st shaft

/-- The function `do_treadle`: queue the motion for a treadle push, run the scheduler, and
then record every shaft's ending position directly from the tie-up. -/
def do_treadle (tu : Nat → Nat → Bool) (seq : List Nat) (size treadle : Nat)
    (st : Nat → ShaftStatus) : (Nat → ShaftStatus) × List StepEvent :=
  let r := do_steps (do_treadle_queue tu seq size treadle st)
  (fun shaft =>
    if shaft < NUM_SHAFTS then
      { r.1 shaft with
        shaft_position := if tu shaft treadle then ShaftPos.down else ShaftPos.up }
    else r.1 shaft,
   r.2)

/-- The queueing loop of `center_all_shafts`: used shafts schedule the return
to center; every shaft's recorded position is then set to CENTER. -/
def center_all_queue (tu : Nat → Nat → Bool) (seq : List Nat) (size : Nat)
    (st : Nat → ShaftStatus) : Nat → ShaftStatus := fun shaft =>
  if shaft < NUM_SHAFTS then
    let s := st shaft
    let s' :=
      if using_shaft tu seq size shaft then
        match s.shaft_position with
        | ShaftPos.up => { s with steps_to_move := -s.steps_to_up }
        | ShaftPos.down => { s with steps_to_move := s.steps_to_down }
        | ShaftPos.center => { s with steps_to_move := 0 }
      else s
    { s' with shaft_position := ShaftPos.center }
  else st shaft

/-- The function `center_all_shafts`: queue all used shafts back to center and run the
scheduler. -/
def center_all_shafts (tu : Nat → Nat → Bool) (seq : List Nat) (size : Nat)
    (st : Nat → ShaftStatus) : (Nat → ShaftStatus) × List StepEvent :=
  do_steps (center_all_queue tu seq size st)

/-- Formalisation of claim C5's wording: scanning the trace, every physical
step must immediately follow a motor-fault check (the Bool argument records
whether the previous event was a fault check; at entry nothing precedes). -/
def check_precedes_steps : Bool → List StepEvent → Bool
  | _, [] => true
  | _, StepEvent.faultCheck :: rest => check_precedes_steps true rest
  | prev, StepEvent.stepMotor _ :: rest => prev && check_precedes_steps false rest

/-- Shape of the scheduler trace after the entry check: a sequence of passes,
each a nonempty block of at most `NUM_SHAFTS` physical steps followed by one
motor-fault check. -/
inductive PassesShape : List StepEvent → Prop where
  | done : PassesShape []
  | pass (evs rest : List StepEvent) (hstep : ∀ e ∈ evs, e ≠ StepEvent.faultCheck)
      (hlen : evs.length ≤ NUM_SHAFTS) (hne : evs ≠ [])
      (hrest : PassesShape rest) : PassesShape (evs ++ StepEvent.faultCheck :: rest)

/-! ## Calibration protocol -/

/-- Input events relevant to `get_calibration`. -/
inductive LoomEvent where
  | ePBH
  | ePBV
  | eVrotL
  | eVrotR
  | eOther
deriving DecidableEq

/-- The function `get_calibration` consumes input events while accumulating a signed step
count; each eVrotR event moves one full original step down (`uSTEPS_PER_STEP`
= 4 microsteps, counted -4), each eVrotL +4; ePBH (when `allow_abort`) returns
999; ePBV confirms and returns the accumulated count.  Returns `none` when the
event stream ends without a terminating event (the firmware would keep
polling). -/
def get_calibration : Bool → List LoomEvent → Int → Option (Int × List LoomEvent)
  | _, [], _ => none
  | allow_abort, e :: rest, steps =>
    if e = LoomEvent.eVrotR then get_calibration allow_abort rest (steps - 4)
    else if e = LoomEvent.eVrotL then get_calibration allow_abort rest (steps + 4)
    else if allow_abort ∧ e = LoomEvent.ePBH then some (999, rest)
    else if e = LoomEvent.ePBV then some (steps, rest)
    else get_calibration allow_abort rest steps

/-- The initialization loop of `do_calibration`: every shaft is reset to
centered, nominal travel, no pending motion. -/
def calib_reset (st : Nat → ShaftStatus) : Nat → ShaftStatus := fun k =>
  if k < NUM_SHAFTS then ⟨ShaftPos.center, NOMINAL_STEPS, NOMINAL_STEPS, 0⟩ else st k

/-- The per-shaft loop of `do_calibration`: for each shaft in use, run the
center phase (skippable via 999), then the down phase (recording
`steps_to_down` and returning to center), then the up phase.  `fuel` counts
the remaining shafts (`NUM_SHAFTS - shaft`). -/
def calib_loop (tu : Nat → Nat → Bool) (seq : List Nat) (size : Nat) :
    Nat → Nat → (Nat → ShaftStatus) → List LoomEvent → Option (Nat → ShaftStatus)
  | 0, _, st, _ => some st
  | fuel+1, shaft, st, evs =>
    if using_shaft tu seq size shaft then
      match get_calibration true evs 0 with
      | none => none
      | some (r, evs1) =>
        if r = 999 then calib_loop tu seq size fuel (shaft+1) st evs1
        else
          match get_calibration false evs1 0 with
          | none => none
          | some (d, evs2) =>
            let st1 : Nat → ShaftStatus := fun j =>
              if j = shaft then
                { st j with steps_to_down := -d, steps_to_move := -d }
              else st j
            let st2 := (do_steps st1).1
            match get_calibration false evs2 0 with
            | none => none
            | some (u, evs3) =>
              let st3 : Nat → ShaftStatus := fun j =>
                if j = shaft then
                  { st2 j with steps_to_up := u, steps_to_move := -u }
                else st2 j
              calib_loop tu seq size fuel (shaft+1) (do_steps st3).1 evs3
    else calib_loop tu seq size fuel (shaft+1) st evs

/-- The function `do_calibration`: reset all shafts to nominal, then visit the shafts in
use. -/
def do_calibration (tu : Nat → Nat → Bool) (seq : List Nat) (size : Nat)
    (st : Nat → ShaftStatus) (evs : List LoomEvent) : Option (Nat → ShaftStatus) :=
  calib_loop tu seq size NUM_SHAFTS 0 (calib_reset st) evs

/-! Concrete data used by witnesses and counterexamples. -/

/-- A shaft at rest in the center with calibration 300 down / 280 up. -/
def restShaft : ShaftStatus := ⟨ShaftPos.center, 300, 280, 0⟩

/-- All shafts at rest in the center. -/
def demoState : Nat → ShaftStatus := fun _ => restShaft

/-- All shafts at rest in the UP position. -/
def upState : Nat → ShaftStatus := fun _ => ⟨ShaftPos.up, 300, 280, 0⟩

/-- Shafts 0 and 1 with one queued step each. -/
def twoPendingState : Nat → ShaftStatus := fun k =>
  if k < 2 then ⟨ShaftPos.center, 300, 280, 1⟩ else restShaft

/-- A tie-up where treadle pulls are tied only to shaft 0. -/
def demoTieup : Nat → Nat → Bool := fun s _ => s == 0

/-- A tie-up with no ties at all: no shaft is used. -/
def unusedTieup : Nat → Nat → Bool := fun _ _ => false

/-- A tie-up where every treadle pulls every shaft. -/
def demoTieupAll : Nat → Nat → Bool := fun _ _ => true

/-! ## Persistent store (EEPROM)

Layout constants, from the struct layouts on the Teensy (4-byte `int`, 1-byte
`bool`/`byte`, natural alignment):
`config_hdr` is 28 bytes (id 4, size 4, five bytes, unused 15) and
`shaft_status[8]` is 8 × 16 bytes, so `CONFIG_SIZE = 156`;
`file_hdr` is 24 bytes (id 4, size 4, checksum 1, filename 15), the tie-up
matrix 8 × 16 one-byte bools, the sequence 99 bytes, so `FILE_SIZE = 251`.
The EEPROM is a list of 4096 byte values. -/

def CONFIG_SIZE : Nat := 156
def FILE_HDR_SIZE : Nat := 24
def TIEUP_SIZE : Nat := 128
def FILE_SIZE : Nat := FILE_HDR_SIZE + TIEUP_SIZE + MAX_SEQUENCE
def MAX_FILES : Nat := (EEPROM_SIZE - CONFIG_SIZE) / FILE_SIZE

/-- Byte address of file record `filenum`. -/
def file_loc (filenum : Nat) : Nat := CONFIG_SIZE + filenum * FILE_SIZE

/-- The function `write_EEPROM`: write the bytes one at a time at increasing addresses. -/
def write_EEPROM : List Nat → Nat → List Nat → List Nat
  | mem, _, [] => mem
  | mem, loc, b :: rest => write_EEPROM (mem.set loc b) (loc+1) rest

/-- The function `read_EEPROM`: read `count` bytes at increasing addresses. -/
def read_EEPROM : List Nat → Nat → Nat → List Nat
  | _, _, 0 => []
  | mem, loc, n+1 => mem.getD loc 0 :: read_EEPROM mem (loc+1) n

/-- The in-memory `file_hdr` struct. -/
structure FileHdr where
  id : List Nat
  size : Int
  checksum : Nat
  filename : List Nat
deriving DecidableEq

/-- The four `id` bytes "fil" plus the terminating NUL. -/
def filTag : List Nat := [102, 105, 108, 0]

/-- Little-endian bytes of a 32-bit `int`. -/
def int32le (n : Int) : List Nat :=
  let u := (n % (4294967296 : Int)).toNat
  [u % 256, u / 256 % 256, u / 65536 % 256, u / 16777216 % 256]

/-- The 32-bit `int` denoted by four little-endian bytes (two's complement). -/
def parseInt32 (bs : List Nat) : Int :=
  let u := bs.getD 0 0 + 256 * bs.getD 1 0 + 65536 * bs.getD 2 0 + 16777216 * bs.getD 3 0
  if u < 2147483648 then (u : Int) else (u : Int) - 4294967296

/-- The byte image of `file_hdr` (offsets: id 0, size 4, checksum 8,
filename 9; total 24, no padding). -/
def serialize_file_hdr (h : FileHdr) : List Nat :=
  h.id ++ int32le h.size ++ [h.checksum] ++ h.filename

/-- Read the `file_hdr` fields back out of its byte image. -/
def parse_file_hdr (bs : List Nat) : FileHdr :=
  ⟨bs.take 4, parseInt32 ((bs.drop 4).take 4), bs.getD 8 0, (bs.drop 9).take 15⟩

/-- The reader's additive checksum: bytes summed into a `byte` accumulator,
i.e. modulo 256. -/
def byte_sum (bs : List Nat) : Nat := bs.sum % 256

/-- Second phase of `cleanup_filename`: walking down from the break index,
convert embedded NULs to blanks. -/
def cf_phase2 : List Nat → Nat → List Nat
  | name, 0 => name
  | name, i+1 => cf_phase2 (if name.getD i 0 = 0 then name.set i 32 else name) i

/-- First phase of `cleanup_filename`: walking down from the end, blanks
become NUL and NULs are skipped, until the first other character breaks into
phase 2. -/
def cf_phase1 : List Nat → Nat → List Nat
  | name, 0 => name
  | name, i+1 =>
    if name.getD i 0 = 32 then cf_phase1 (name.set i 0) i
    else if name.getD i 0 ≠ 0 then cf_phase2 name (i+1)
    else cf_phase1 name i

/-- The function `cleanup_filename`: force a NUL terminator, strip trailing blanks, and
convert any embedded NULs before the last real character into blanks. -/
def cleanup_filename (name : List Nat) : List Nat :=
  cf_phase1 (name.set MAX_FILENAME 0) MAX_FILENAME

/-- Diagnostic message of the declared-size assert. -/
def badFileSizeMsg : String := "bad file size"

/-- Diagnostic message of the checksum assert. -/
def badFileChecksumMsg : String := "bad file checksum"

/-- Outcome of `read_file_hdr`: a validated header, a synthesized blank
header (bad magic tag — record treated as never written), or a diagnostic
halt (`assert` failure). -/
inductive HdrResult where
  | ok (hdr : FileHdr)
  | blank (hdr : FileHdr)
  | halt (msg : String)
deriving DecidableEq

/-- Is the outcome a validated header? -/
def HdrResult.isOk : HdrResult → Bool
  | HdrResult.ok _ => true
  | _ => false

/-- The validation logic of `read_file_hdr`, applied to the 24 header bytes
read from the EEPROM: `strcmp(id,"fil")`, then `assert(size == FILE_SIZE)`,
then `assert(checksum == 0)`; on a bad tag, synthesize a blank header. -/
def classify_file_hdr (bytes : List Nat) : HdrResult :=
  let hdr := parse_file_hdr bytes
  if hdr.id = filTag then
    if hdr.size ≠ (FILE_SIZE : Int) then HdrResult.halt badFileSizeMsg
    else if byte_sum bytes ≠ 0 then HdrResult.halt badFileChecksumMsg
    else HdrResult.ok { hdr with filename := cleanup_filename hdr.filename }
  else
    HdrResult.blank
      { id := filTag, size := (FILE_SIZE : Int), checksum := hdr.checksum,
        filename := List.replicate (MAX_FILENAME + 1) 0 }

/-- The function `read_file_hdr(filenum)`. -/
def read_file_hdr (mem : List Nat) (filenum : Nat) : HdrResult :=
  classify_file_hdr (read_EEPROM mem (file_loc filenum) FILE_HDR_SIZE)

/-- The one-byte image of a C `bool`. -/
def serializeBool (b : Bool) : Nat := if b then 1 else 0

/-- The function `write_file(filenum)`: build the header with the checksum field zeroed,
sum its bytes, store the negated sum (as a byte) in the checksum field, and
write header, tie-up matrix and treadle sequence contiguously. -/
def write_file (mem : List Nat) (filenum : Nat) (name : List Nat) (tb : List Bool)
    (seq : List Nat) : List Nat :=
  let checksum : Int := (serialize_file_hdr ⟨filTag, (FILE_SIZE : Int), 0, name⟩).sum
  let cs : Nat := ((-checksum) % 256).toNat
  let m1 := write_EEPROM mem (file_loc filenum)
    (serialize_file_hdr ⟨filTag, (FILE_SIZE : Int), cs, name⟩)
  let m2 := write_EEPROM m1 (file_loc filenum + FILE_HDR_SIZE) (tb.map serializeBool)
  write_EEPROM m2 (file_loc filenum + FILE_HDR_SIZE + TIEUP_SIZE) seq

/-- The function `read_file_data(filenum)`: read the tie-up matrix and treadle sequence
bytes back into the live structures and compact the sequence. -/
def read_file_data (mem : List Nat) (filenum : Nat) : List Bool × List Nat × Nat :=
  let tb := (read_EEPROM mem (file_loc filenum + FILE_HDR_SIZE) TIEUP_SIZE).map
    (fun b => b != 0)
  let sq := read_EEPROM mem (file_loc filenum + FILE_HDR_SIZE + TIEUP_SIZE) MAX_SEQUENCE
  let r := cleanup_treadle_sequence sq
  (tb, r.1, r.2)

/-! ## Weaving-mode navigation -/

/-- Backward navigation in weaving mode (events `ePBV` / `eVrotL`):
`if (--config_hdr.tr_seq_pos < 0) config_hdr.tr_seq_pos = sequence_size - 1;`.
`tr_seq_pos` is an unsigned `byte`, so the decrement wraps 0 to 255 and the
comparison tests that already-wrapped, necessarily non-negative value. -/
def weave_back_position (tr_seq_pos : Nat) (sequence_size : Int) : Nat :=
  let dec := (tr_seq_pos + 255) % 256
  if (dec : Int) < 0 then ((sequence_size - 1) % 256).toNat else dec

/-- Forward navigation in weaving mode (events `ePEDAL` / `eVrotR`):
`if (++config_hdr.tr_seq_pos >= sequence_size) config_hdr.tr_seq_pos = 0;`. -/
def weave_forward_position (tr_seq_pos : Nat) (sequence_size : Int) : Nat :=
  let inc := (tr_seq_pos + 1) % 256
  if (inc : Int) ≥ sequence_size then 0 else inc

/-! Concrete store data used by witnesses and counterexamples. -/

/-- An erased EEPROM: 4096 zero bytes. -/
def memZero : List Nat := List.replicate EEPROM_SIZE 0

/-- A canonical 15-byte filename buffer: "A" padded with NULs. -/
def demoName : List Nat := 65 :: List.replicate 14 0

/-- An empty tie-up matrix image. -/
def demoTieupBytes : List Bool := List.replicate TIEUP_SIZE false

/-- A compacted demo sequence: treadles 0, 1 then unused slots. -/
def seqGood : List Nat := 0 :: 1 :: List.replicate 97 UNUSED_SEQ

/-- A sequence buffer with a leading unused slot (not fixed by compaction). -/
def seqBad : List Nat := UNUSED_SEQ :: 3 :: List.replicate 97 UNUSED_SEQ

/-- A store whose file 0 has a valid tag but a wrong declared size (250
instead of 251); bytes beyond the end read as 0, like erased EEPROM. -/
def memBadSize : List Nat :=
  List.replicate CONFIG_SIZE 0 ++ [102, 105, 108, 0, 250, 0, 0, 0]

/-- A valid 24-byte header image: tag, size 251, checksum byte 202
(315 + 251 + 202 = 768 = 3 × 256), blank name. -/
def demoHdrBytes : List Nat :=
  [102, 105, 108, 0, 251, 0, 0, 0, 202] ++ List.replicate 15 0

end Loom

namespace Loom

/-! ## Lemmas about the treadle-sequence operations -/

theorem cleanupAux_spec (fuel : Nat) : ∀ (rpos wpos : Nat) (buf : List Nat),
    wpos ≤ rpos → rpos + fuel = buf.length →
    (cleanupAux fuel rpos wpos buf).2
        = wpos + ((buf.drop rpos).filter (fun t => t ≠ UNUSED_SEQ)).length ∧
    (cleanupAux fuel rpos wpos buf).1
        = buf.take wpos ++ (buf.drop rpos).filter (fun t => t ≠ UNUSED_SEQ)
            ++ buf.drop (wpos + ((buf.drop rpos).filter (fun t => t ≠ UNUSED_SEQ)).length) := by
  induction fuel with
  | zero =>
    intro rpos wpos buf hw hl
    have hdrop : buf.drop rpos = [] := by
      apply List.drop_eq_nil_of_le; omega
    simp [cleanupAux, hdrop]
  | succ n ih =>
    intro rpos wpos buf hw hl
    have hr : rpos < buf.length := by omega
    have hwlt : wpos < buf.length := by omega
    have hdrop : buf.drop rpos = buf[rpos] :: buf.drop (rpos+1) :=
      List.drop_eq_getElem_cons hr
    have hget : buf.getD rpos UNUSED_SEQ = buf[rpos] := List.getD_eq_getElem _ _ hr
    by_cases ht : buf[rpos] = UNUSED_SEQ
    · -- unused entry: skipped
      have hstep : cleanupAux (n+1) rpos wpos buf = cleanupAux n (rpos+1) wpos buf := by
        simp only [cleanupAux]
        rw [hget, if_neg (by simp [ht])]
      rw [hstep, hdrop, List.filter_cons, if_neg (by simp [ht])]
      exact ih (rpos+1) wpos buf (by omega) (by omega)
    · -- used entry: copied to wpos
      have hstep : cleanupAux (n+1) rpos wpos buf
          = cleanupAux n (rpos+1) (wpos+1) (buf.set wpos buf[rpos]) := by
        simp only [cleanupAux]
        rw [hget, if_pos (by simp [ht])]
      rw [hstep, hdrop, List.filter_cons, if_pos (by simp [ht])]
      set buf' := buf.set wpos buf[rpos] with hbuf'
      have hlen' : buf'.length = buf.length := by simp [hbuf']
      have hdrop' : buf'.drop (rpos+1) = buf.drop (rpos+1) := by
        rw [hbuf', List.drop_set]
        simp [Nat.lt_succ_of_le hw]
      have htake' : buf'.take (wpos+1) = buf.take wpos ++ [buf[rpos]] := by
        rw [hbuf', List.set_eq_take_cons_drop _ hwlt]
        rw [List.take_append_eq_append_take]
        simp [List.length_take, Nat.min_eq_left (Nat.le_of_lt hwlt)]
      have hdropsame : ∀ j, wpos + 1 ≤ j → buf'.drop j = buf.drop j := by
        intro j hj
        rw [hbuf', List.drop_set]
        simp [Nat.lt_of_lt_of_le (Nat.lt_succ_self wpos) hj]
      obtain ⟨h1, h2⟩ := ih (rpos+1) (wpos+1) buf' (by omega) (by omega)
      rw [hdrop'] at h1 h2
      set f' := (buf.drop (rpos+1)).filter (fun t => decide (t ≠ UNUSED_SEQ)) with hf'
      constructor
      · rw [h1]
        simp only [List.length_cons]
        omega
      · rw [h2, htake', hdropsame _ (by omega)]
        have harith : wpos + 1 + f'.length = wpos + (buf[rpos] :: f').length := by
          simp only [List.length_cons]; omega
        rw [harith]
        simp [List.append_assoc]

theorem insertAux_spec (fuel : Nat) : ∀ (p s : Nat) (buf : List Nat),
    p + fuel = buf.length →
    insertAux fuel p s buf = buf.take p ++ (s :: buf.drop p).take fuel := by
  induction fuel with
  | zero =>
    intro p s buf hl
    have htk : buf.take p = buf := List.take_of_length_le (by omega)
    simp [insertAux, htk]
  | succ n ih =>
    intro p s buf hl
    have hp : p < buf.length := by omega
    have hget : buf.getD p UNUSED_SEQ = buf[p] := List.getD_eq_getElem _ _ hp
    show insertAux n (p+1) (buf.getD p UNUSED_SEQ) (buf.set p s)
        = buf.take p ++ (s :: buf.drop p).take (n+1)
    rw [hget]
    set buf' := buf.set p s with hbuf'
    have hlen' : buf'.length = buf.length := by simp [hbuf']
    rw [ih (p+1) buf[p] buf' (by omega)]
    have htake' : buf'.take (p+1) = buf.take p ++ [s] := by
      rw [hbuf', List.set_eq_take_cons_drop _ hp, List.take_append_eq_append_take]
      simp [List.length_take, Nat.min_eq_left (Nat.le_of_lt hp)]
    have hdrop' : buf'.drop (p+1) = buf.drop (p+1) := by
      rw [hbuf', List.drop_set]
      simp
    rw [htake', hdrop', List.drop_eq_getElem_cons hp]
    simp [List.append_assoc]

theorem deleteAux_spec (fuel : Nat) : ∀ (p : Nat) (buf : List Nat),
    p + fuel + 1 = buf.length →
    deleteAux fuel p buf = buf.take p ++ buf.drop (p+1) ++ [UNUSED_SEQ] := by
  induction fuel with
  | zero =>
    intro p buf hl
    have hp : p < buf.length := by omega
    show buf.set p UNUSED_SEQ = buf.take p ++ buf.drop (p+1) ++ [UNUSED_SEQ]
    rw [List.set_eq_take_cons_drop _ hp]
    have : buf.drop (p+1) = [] := List.drop_eq_nil_of_le (by omega)
    simp [this]
  | succ n ih =>
    intro p buf hl
    have hp : p < buf.length := by omega
    have hp1 : p + 1 < buf.length := by omega
    have hget : buf.getD (p+1) UNUSED_SEQ = buf[p+1] := List.getD_eq_getElem _ _ hp1
    show deleteAux n (p+1) (buf.set p (buf.getD (p+1) UNUSED_SEQ))
        = buf.take p ++ buf.drop (p+1) ++ [UNUSED_SEQ]
    rw [hget]
    set buf' := buf.set p buf[p+1] with hbuf'
    have hlen' : buf'.length = buf.length := by simp [hbuf']
    rw [ih (p+1) buf' (by omega)]
    have htake' : buf'.take (p+1) = buf.take p ++ [buf[p+1]] := by
      rw [hbuf', List.set_eq_take_cons_drop _ hp, List.take_append_eq_append_take]
      simp [List.length_take, Nat.min_eq_left (Nat.le_of_lt hp)]
    have hdrop' : buf'.drop (p+2) = buf.drop (p+2) := by
      rw [hbuf', List.drop_set]
      simp
    rw [htake', hdrop', List.drop_eq_getElem_cons hp1]
    simp [List.append_assoc]

theorem getD_take_of_lt (l : List Nat) (n k d : Nat) (h : k < n) :
    (l.take n).getD k d = l.getD k d := by
  simp only [List.getD_eq_getElem?_getD]
  rw [List.getElem?_take_of_lt h]

/-- C6: `cleanup_treadle_sequence` copies the non-UNUSED entries left-justified
in their original relative order, sets `sequence_size` to the count of
non-UNUSED entries, and afterwards no UNUSED sentinel appears at any position
before `sequence_size`. -/
theorem C6_cleanup_treadle_sequence_spec (buf : List Nat)
    (hlen : buf.length = MAX_SEQUENCE) :
    (cleanup_treadle_sequence buf).1.take (cleanup_treadle_sequence buf).2
        = buf.filter (fun t => t ≠ UNUSED_SEQ) ∧
    (cleanup_treadle_sequence buf).2 = (buf.filter (fun t => t ≠ UNUSED_SEQ)).length ∧
    ∀ i, i < (cleanup_treadle_sequence buf).2 →
      (cleanup_treadle_sequence buf).1.getD i UNUSED_SEQ ≠ UNUSED_SEQ := by
  obtain ⟨h1, h2⟩ := cleanupAux_spec MAX_SEQUENCE 0 0 buf (Nat.le_refl 0) (by omega)
  simp only [List.drop_zero, List.take_zero, List.nil_append] at h1 h2
  have h1' : (cleanup_treadle_sequence buf).2 = (buf.filter (fun t => t ≠ UNUSED_SEQ)).length := by
    simpa [cleanup_treadle_sequence] using h1
  have h2' : (cleanup_treadle_sequence buf).1
      = buf.filter (fun t => t ≠ UNUSED_SEQ)
          ++ buf.drop ((buf.filter (fun t => t ≠ UNUSED_SEQ)).length) := by
    simpa [cleanup_treadle_sequence] using h2
  have htake : (cleanup_treadle_sequence buf).1.take (cleanup_treadle_sequence buf).2
      = buf.filter (fun t => t ≠ UNUSED_SEQ) := by
    rw [h2', h1']
    exact List.take_left' rfl
  refine ⟨htake, h1', ?_⟩
  intro i hi
  have hflen : i < (buf.filter (fun t => decide (t ≠ UNUSED_SEQ))).length := by
    rw [h1'] at hi; exact hi
  have hgd : (cleanup_treadle_sequence buf).1.getD i UNUSED_SEQ
      = (buf.filter (fun t => decide (t ≠ UNUSED_SEQ))).getD i UNUSED_SEQ := by
    rw [← htake]
    exact (getD_take_of_lt _ _ _ _ hi).symm
  rw [hgd, List.getD_eq_getElem _ _ hflen]
  have hmem := List.getElem_mem hflen
  have := (List.mem_filter.mp hmem).2
  simpa using this

/-- C6 witness: the compaction theorem applied at a concrete buffer. -/
theorem C6_cleanup_treadle_sequence_witness :
    cleanupDemoBuf.length = MAX_SEQUENCE ∧
    (cleanup_treadle_sequence cleanupDemoBuf).1.take (cleanup_treadle_sequence cleanupDemoBuf).2
        = cleanupDemoBuf.filter (fun t => t ≠ UNUSED_SEQ) ∧
    (cleanup_treadle_sequence cleanupDemoBuf).2
        = (cleanupDemoBuf.filter (fun t => t ≠ UNUSED_SEQ)).length := by
  have h := C6_cleanup_treadle_sequence_spec cleanupDemoBuf (by decide)
  exact ⟨by decide, h.1, h.2.1⟩

/-- C7: `insert_treadle_sequence(pos)` shifts the tail down one slot (dropping
the last slot) and writes UNUSED at `pos`; `delete_treadle_sequence(pos)`
shifts the tail up one slot and writes UNUSED into the vacated last slot; both
preserve the relative order of all other entries. -/
theorem C7_insert_delete_treadle_sequence_spec (buf : List Nat) (pos : Nat)
    (hlen : buf.length = MAX_SEQUENCE) (hpos : pos < MAX_SEQUENCE) :
    insert_treadle_sequence buf pos
        = buf.take pos ++ UNUSED_SEQ :: (buf.drop pos).take (MAX_SEQUENCE - pos - 1) ∧
    delete_treadle_sequence buf pos
        = buf.take pos ++ buf.drop (pos+1) ++ [UNUSED_SEQ] := by
  have hp : pos < buf.length := by omega
  constructor
  · show insertAux (MAX_SEQUENCE - pos - 1) (pos+1) (buf.getD pos UNUSED_SEQ)
        (buf.set pos UNUSED_SEQ) = _
    have hlen' : (buf.set pos UNUSED_SEQ).length = buf.length := by simp
    rw [insertAux_spec _ _ _ _ (by rw [hlen']; omega)]
    have htake' : (buf.set pos UNUSED_SEQ).take (pos+1) = buf.take pos ++ [UNUSED_SEQ] := by
      rw [List.set_eq_take_cons_drop _ hp, List.take_append_eq_append_take]
      simp [List.length_take, Nat.min_eq_left (Nat.le_of_lt hp)]
    have hdrop' : (buf.set pos UNUSED_SEQ).drop (pos+1) = buf.drop (pos+1) := by
      rw [List.drop_set]; simp
    have hget : buf.getD pos UNUSED_SEQ = buf[pos] := List.getD_eq_getElem _ _ hp
    rw [htake', hdrop', hget, ← List.drop_eq_getElem_cons hp]
    simp [List.append_assoc]
  · show deleteAux (MAX_SEQUENCE - 1 - pos) pos buf = _
    rw [deleteAux_spec _ _ _ (by omega)]

/-- C7 witness: insert/delete applied at a concrete buffer and position. -/
theorem C7_insert_delete_treadle_sequence_witness :
    editDemoBuf.length = MAX_SEQUENCE ∧ 2 < MAX_SEQUENCE ∧
    insert_treadle_sequence editDemoBuf 2
        = editDemoBuf.take 2 ++ UNUSED_SEQ :: (editDemoBuf.drop 2).take (MAX_SEQUENCE - 2 - 1) ∧
    delete_treadle_sequence editDemoBuf 2
        = editDemoBuf.take 2 ++ editDemoBuf.drop 3 ++ [UNUSED_SEQ] := by
  have h := C7_insert_delete_treadle_sequence_spec editDemoBuf 2 (by decide) (by decide)
  exact ⟨by decide, by decide, h.1, h.2⟩

/-! ## Lemmas about the step scheduler -/

theorem step_shaft_of_zero (s : ShaftStatus) (h : s.steps_to_move = 0) : step_shaft s = s := by
  simp [step_shaft, h]

theorem step_shaft_natAbs_le (s : ShaftStatus) :
    (step_shaft s).steps_to_move.natAbs ≤ s.steps_to_move.natAbs := by
  by_cases h1 : s.steps_to_move < 0
  · simp only [step_shaft, if_pos h1]
    omega
  · by_cases h2 : s.steps_to_move > 0
    · simp only [step_shaft, if_neg h1, if_pos h2]
      omega
    · simp only [step_shaft, if_neg h1, if_neg h2]
      omega

theorem step_shaft_natAbs_lt (s : ShaftStatus) (h : s.steps_to_move ≠ 0) :
    (step_shaft s).steps_to_move.natAbs < s.steps_to_move.natAbs := by
  by_cases h1 : s.steps_to_move < 0
  · simp only [step_shaft, if_pos h1]
    omega
  · have h2 : s.steps_to_move > 0 := by omega
    simp only [step_shaft, if_neg h1, if_pos h2]
    omega

theorem shaft_step_events_eq_nil (k : Nat) (s : ShaftStatus) :
    shaft_step_events k s = [] ↔ s.steps_to_move = 0 := by
  by_cases h : s.steps_to_move = 0 <;> simp [shaft_step_events, h]

theorem one_pass_state_natAbs_le (st : Nat → ShaftStatus) (k : Nat) :
    (one_pass_state st k).steps_to_move.natAbs ≤ (st k).steps_to_move.natAbs := by
  by_cases hk : k < NUM_SHAFTS
  · simp only [one_pass_state, if_pos hk]
    exact step_shaft_natAbs_le (st k)
  · simp only [one_pass_state, if_neg hk]
    exact Nat.le_refl _

theorem one_pass_state_of_zero (st : Nat → ShaftStatus) (k : Nat)
    (h : (st k).steps_to_move = 0) : one_pass_state st k = st k := by
  by_cases hk : k < NUM_SHAFTS
  · simp only [one_pass_state, if_pos hk]
    exact step_shaft_of_zero _ h
  · simp only [one_pass_state, if_neg hk]

theorem pass_trace_aux_nil_iff (st : Nat → ShaftStatus) (n : Nat) :
    ∀ k, pass_trace_aux st n k = [] ↔ ∀ i, i < n → (st (k+i)).steps_to_move = 0 := by
  induction n with
  | zero =>
    intro k
    simp [pass_trace_aux]
  | succ m ih =>
    intro k
    simp only [pass_trace_aux, List.append_eq_nil]
    rw [shaft_step_events_eq_nil, ih (k+1)]
    constructor
    · rintro ⟨h1, h2⟩ i hi
      cases i with
      | zero => simpa using h1
      | succ j =>
        have := h2 j (by omega)
        have harith : k + 1 + j = k + (j+1) := by omega
        rwa [harith] at this
    · intro h
      refine ⟨by simpa using h 0 (by omega), fun j hj => ?_⟩
      have := h (j+1) (by omega)
      have harith : k + (j+1) = k + 1 + j := by omega
      rwa [harith] at this

theorem stepMotor_not_mem_pass_trace_aux (st : Nat → ShaftStatus) (j : Nat)
    (hj : (st j).steps_to_move = 0) (n : Nat) :
    ∀ k, StepEvent.stepMotor j ∉ pass_trace_aux st n k := by
  induction n with
  | zero =>
    intro k
    simp [pass_trace_aux]
  | succ m ih =>
    intro k hmem
    simp only [pass_trace_aux] at hmem
    rcases List.mem_append.mp hmem with h1 | h2
    · by_cases h : (st k).steps_to_move = 0
      · simp [shaft_step_events, h] at h1
      · simp only [shaft_step_events, if_pos h, List.mem_singleton] at h1
        have hjk : j = k := by
          cases h1; rfl
        exact h (hjk ▸ hj)
    · exact ih (k+1) h2

theorem pass_trace_aux_no_check (st : Nat → ShaftStatus) (n : Nat) :
    ∀ k, ∀ e ∈ pass_trace_aux st n k, e ≠ StepEvent.faultCheck := by
  induction n with
  | zero =>
    intro k e he
    simp [pass_trace_aux] at he
  | succ m ih =>
    intro k e he
    simp only [pass_trace_aux] at he
    rcases List.mem_append.mp he with h1 | h2
    · by_cases h : (st k).steps_to_move = 0
      · simp [shaft_step_events, h] at h1
      · simp only [shaft_step_events, if_pos h, List.mem_singleton] at h1
        subst h1
        simp
    · exact ih (k+1) e h2

theorem pass_trace_aux_length (st : Nat → ShaftStatus) (n : Nat) :
    ∀ k, (pass_trace_aux st n k).length ≤ n := by
  induction n with
  | zero =>
    intro k
    simp [pass_trace_aux]
  | succ m ih =>
    intro k
    simp only [pass_trace_aux, List.length_append]
    have h1 : (shaft_step_events k (st k)).length ≤ 1 := by
      by_cases h : (st k).steps_to_move = 0 <;> simp [shaft_step_events, h]
    have h2 := ih (k+1)
    omega

theorem totalPendingAux_one_pass_le (st : Nat → ShaftStatus) (n : Nat) :
    ∀ k, totalPendingAux (one_pass_state st) n k ≤ totalPendingAux st n k := by
  induction n with
  | zero =>
    intro k
    simp [totalPendingAux]
  | succ m ih =>
    intro k
    simp only [totalPendingAux]
    have h1 := one_pass_state_natAbs_le st k
    have h2 := ih (k+1)
    omega

theorem totalPendingAux_one_pass_lt (st : Nat → ShaftStatus) (n : Nat) :
    ∀ k, pass_trace_aux st n k ≠ [] → k + n ≤ NUM_SHAFTS →
      totalPendingAux (one_pass_state st) n k < totalPendingAux st n k := by
  induction n with
  | zero =>
    intro k h _
    simp [pass_trace_aux] at h
  | succ m ih =>
    intro k hne hbound
    simp only [totalPendingAux]
    by_cases h : (st k).steps_to_move = 0
    · have hhead : shaft_step_events k (st k) = [] := (shaft_step_events_eq_nil k (st k)).mpr h
      have htail : pass_trace_aux st m (k+1) ≠ [] := by
        intro hc
        apply hne
        simp only [pass_trace_aux, hhead, hc, List.nil_append]
      have h2 := ih (k+1) htail (by omega)
      have h1 := one_pass_state_natAbs_le st k
      omega
    · have hk : k < NUM_SHAFTS := by omega
      have h1 : (one_pass_state st k).steps_to_move.natAbs < (st k).steps_to_move.natAbs := by
        simp only [one_pass_state, if_pos hk]
        exact step_shaft_natAbs_lt (st k) h
      have h2 := totalPendingAux_one_pass_le st m (k+1)
      omega

theorem totalPending_one_pass_lt (st : Nat → ShaftStatus) (h : one_pass_trace st ≠ []) :
    totalPending (one_pass_state st) < totalPending st :=
  totalPendingAux_one_pass_lt st NUM_SHAFTS 0 h (by omega)

theorem drainFuel_preserve (fuel : Nat) : ∀ (st : Nat → ShaftStatus) (k : Nat),
    (st k).steps_to_move = 0 → (drainFuel fuel st).1 k = st k := by
  induction fuel with
  | zero =>
    intro st k _
    rfl
  | succ n ih =>
    intro st k h
    simp only [drainFuel]
    by_cases hnil : one_pass_trace st = []
    · rw [if_pos hnil]
      exact one_pass_state_of_zero st k h
    · rw [if_neg hnil]
      have hz : (one_pass_state st k).steps_to_move = 0 := by
        rw [one_pass_state_of_zero st k h]
        exact h
      show (drainFuel n (one_pass_state st)).1 k = st k
      rw [ih (one_pass_state st) k hz, one_pass_state_of_zero st k h]

theorem drainFuel_no_step (fuel : Nat) : ∀ (st : Nat → ShaftStatus) (k : Nat),
    (st k).steps_to_move = 0 → StepEvent.stepMotor k ∉ (drainFuel fuel st).2 := by
  induction fuel with
  | zero =>
    intro st k _ hmem
    simp [drainFuel] at hmem
  | succ n ih =>
    intro st k h hmem
    simp only [drainFuel] at hmem
    by_cases hnil : one_pass_trace st = []
    · rw [if_pos hnil] at hmem
      simp at hmem
    · rw [if_neg hnil] at hmem
      have hz : (one_pass_state st k).steps_to_move = 0 := by
        rw [one_pass_state_of_zero st k h]
        exact h
      have hmem' : StepEvent.stepMotor k
          ∈ one_pass_trace st ++ StepEvent.faultCheck :: (drainFuel n (one_pass_state st)).2 :=
        hmem
      rcases List.mem_append.mp hmem' with h1 | h2
      · exact stepMotor_not_mem_pass_trace_aux st k h NUM_SHAFTS 0 h1
      · rcases List.mem_cons.mp h2 with h3 | h4
        · exact StepEvent.noConfusion h3
        · exact ih (one_pass_state st) k hz h4

theorem drainFuel_drains (fuel : Nat) : ∀ (st : Nat → ShaftStatus),
    totalPending st < fuel → ∀ k, k < NUM_SHAFTS →
      ((drainFuel fuel st).1 k).steps_to_move = 0 := by
  induction fuel with
  | zero =>
    intro st h
    omega
  | succ n ih =>
    intro st h k hk
    simp only [drainFuel]
    by_cases hnil : one_pass_trace st = []
    · rw [if_pos hnil]
      have hz : (st k).steps_to_move = 0 := by
        have := (pass_trace_aux_nil_iff st NUM_SHAFTS 0).mp hnil k hk
        simpa using this
      show (one_pass_state st k).steps_to_move = 0
      rw [one_pass_state_of_zero st k hz]
      exact hz
    · rw [if_neg hnil]
      have hlt := totalPending_one_pass_lt st hnil
      show ((drainFuel n (one_pass_state st)).1 k).steps_to_move = 0
      exact ih (one_pass_state st) (by omega) k hk

theorem drainFuel_shape (fuel : Nat) : ∀ (st : Nat → ShaftStatus),
    PassesShape (drainFuel fuel st).2 := by
  induction fuel with
  | zero =>
    intro st
    exact PassesShape.done
  | succ n ih =>
    intro st
    by_cases hnil : one_pass_trace st = []
    · have : (drainFuel (n+1) st).2 = [] := by
        simp only [drainFuel, if_pos hnil]
      rw [this]
      exact PassesShape.done
    · have : (drainFuel (n+1) st).2
          = one_pass_trace st ++ StepEvent.faultCheck :: (drainFuel n (one_pass_state st)).2 := by
        simp only [drainFuel, if_neg hnil]
      rw [this]
      exact PassesShape.pass _ _ (pass_trace_aux_no_check st NUM_SHAFTS 0)
        (pass_trace_aux_length st NUM_SHAFTS 0) hnil (ih (one_pass_state st))

theorem do_steps_preserve (st : Nat → ShaftStatus) (k : Nat)
    (h : (st k).steps_to_move = 0) : (do_steps st).1 k = st k :=
  drainFuel_preserve _ st k h

theorem do_steps_drains (st : Nat → ShaftStatus) (k : Nat) (hk : k < NUM_SHAFTS) :
    ((do_steps st).1 k).steps_to_move = 0 :=
  drainFuel_drains _ st (Nat.lt_succ_self _) k hk

/-! ## Claim C1: `do_treadle` step computation and final positions -/

/-- C1: for every shaft used by the pattern, `do_treadle` queues
CENTER→DOWN `-steps_to_down`, CENTER→UP `+steps_to_up`,
UP→DOWN `-(steps_to_down+steps_to_up)`, DOWN→UP `+(steps_to_down+steps_to_up)`,
and after the scheduler drains all pending steps the shaft's position is DOWN
if the treadle ties it, else UP (and its pending count is zero). -/
theorem C1_do_treadle_spec (tu : Nat → Nat → Bool) (seq : List Nat)
    (size treadle k : Nat) (st : Nat → ShaftStatus) (hk : k < NUM_SHAFTS)
    (hu : using_shaft tu seq size k = true) :
    ((st k).shaft_position = ShaftPos.center → tu k treadle = true →
      (do_treadle_queue tu seq size treadle st k).steps_to_move = -(st k).steps_to_down) ∧
    ((st k).shaft_position = ShaftPos.center → tu k treadle = false →
      (do_treadle_queue tu seq size treadle st k).steps_to_move = (st k).steps_to_up) ∧
    ((st k).shaft_position = ShaftPos.up → tu k treadle = true →
      (do_treadle_queue tu seq size treadle st k).steps_to_move
        = -((st k).steps_to_down + (st k).steps_to_up)) ∧
    ((st k).shaft_position = ShaftPos.down → tu k treadle = false →
      (do_treadle_queue tu seq size treadle st k).steps_to_move
        = (st k).steps_to_down + (st k).steps_to_up) ∧
    ((do_treadle tu seq size treadle st).1 k).shaft_position
        = (if tu k treadle then ShaftPos.down else ShaftPos.up) ∧
    ((do_treadle tu seq size treadle st).1 k).steps_to_move = 0 := by
  refine ⟨?_, ?_, ?_, ?_, ?_, ?_⟩
  · intro hpos htu
    simp [do_treadle_queue, hk, hu, htu, hpos]
  · intro hpos htu
    simp [do_treadle_queue, hk, hu, htu, hpos]
  · intro hpos htu
    simp [do_treadle_queue, hk, hu, htu, hpos]
    omega
  · intro hpos htu
    simp [do_treadle_queue, hk, hu, htu, hpos]
  · simp [do_treadle, hk]
  · simp only [do_treadle, if_pos hk]
    exact do_steps_drains _ k hk

/-- C1 witness: shaft 0, center, calibrated 300/280, tied down by treadle 0. -/
theorem C1_do_treadle_witness :
    using_shaft demoTieup [0] 1 0 = true ∧
    (do_treadle_queue demoTieup [0] 1 0 demoState 0).steps_to_move = -300 ∧
    ((do_treadle demoTieup [0] 1 0 demoState).1 0).shaft_position = ShaftPos.down ∧
    ((do_treadle demoTieup [0] 1 0 demoState).1 0).steps_to_move = 0 := by
  have h := C1_do_treadle_spec demoTieup [0] 1 0 0 demoState (by decide) (by decide)
  refine ⟨by decide, ?_, ?_, h.2.2.2.2.2⟩
  · have := h.1 (by decide) (by decide)
    rw [this]
    decide
  · have := h.2.2.2.2.1
    rw [this]
    decide

/-! ## Claim C5: motor-fault checks in the motion loop -/

/-- C5 counterexample: with two shafts each owing one step, the trace is
entry-check, step shaft 0, step shaft 1, check — the step of shaft 1 is not
preceded by a fault check, refuting "before every single physical step". -/
theorem C5_fault_check_counterexample :
    (do_steps twoPendingState).2
      = [StepEvent.faultCheck, StepEvent.stepMotor 0, StepEvent.stepMotor 1,
         StepEvent.faultCheck] ∧
    check_precedes_steps false (do_steps twoPendingState).2 = false := by
  constructor <;> decide

/-- C5 amended: the scheduler checks the motor fault at entry and once after
every round-robin pass; each pass issues at most NUM_SHAFTS physical steps
between consecutive checks, and at the end every shaft's pending count is
drained to zero. -/
theorem C5_fault_check_amended (st : Nat → ShaftStatus) :
    (do_steps st).2
        = StepEvent.faultCheck :: (drainFuel (totalPending st + 1) st).2 ∧
    PassesShape (drainFuel (totalPending st + 1) st).2 ∧
    ∀ k, k < NUM_SHAFTS → ((do_steps st).1 k).steps_to_move = 0 := by
  refine ⟨rfl, drainFuel_shape _ st, fun k hk => do_steps_drains st k hk⟩

/-- C5 witness: the amended theorem applied at the concrete two-shaft state. -/
theorem C5_fault_check_witness :
    ((do_steps twoPendingState).1 0).steps_to_move = 0 := by
  have h := C5_fault_check_amended twoPendingState
  exact h.2.2 0 (by decide)

/-! ## Claim C9: shafts not used by the pattern -/

/-- C9 counterexample: an unused shaft is indeed never stepped, but its state
is not left untouched: `do_treadle` overwrites its recorded position with the
tie-up target (here CENTER becomes UP), and `center_all_shafts` overwrites it
with CENTER (here UP becomes CENTER). -/
theorem C9_unused_shaft_counterexample :
    using_shaft unusedTieup [] 0 0 = false ∧
    (demoState 0).shaft_position = ShaftPos.center ∧
    ((do_treadle unusedTieup [] 0 0 demoState).1 0).shaft_position = ShaftPos.up ∧
    (upState 0).shaft_position = ShaftPos.up ∧
    ((center_all_shafts unusedTieup [] 0 upState).1 0).shaft_position = ShaftPos.center := by
  refine ⟨by decide, by decide, by decide, by decide, by decide⟩

/-- C9 amended: a shaft not referenced by the pattern is never stepped by
`do_treadle` or `center_all_shafts` and keeps its calibration, but its
recorded position is overwritten: `do_treadle` sets it to the tie-up target,
`center_all_shafts` sets it to CENTER. -/
theorem C9_unused_shaft_amended (tu : Nat → Nat → Bool) (seq : List Nat)
    (size treadle k : Nat) (st : Nat → ShaftStatus) (hk : k < NUM_SHAFTS)
    (hu : using_shaft tu seq size k = false) (hm : (st k).steps_to_move = 0) :
    StepEvent.stepMotor k ∉ (do_treadle tu seq size treadle st).2 ∧
    StepEvent.stepMotor k ∉ (center_all_shafts tu seq size st).2 ∧
    ((do_treadle tu seq size treadle st).1 k).steps_to_down = (st k).steps_to_down ∧
    ((do_treadle tu seq size treadle st).1 k).steps_to_up = (st k).steps_to_up ∧
    ((do_treadle tu seq size treadle st).1 k).shaft_position
        = (if tu k treadle then ShaftPos.down else ShaftPos.up) ∧
    ((center_all_shafts tu seq size st).1 k).steps_to_down = (st k).steps_to_down ∧
    ((center_all_shafts tu seq size st).1 k).steps_to_up = (st k).steps_to_up ∧
    ((center_all_shafts tu seq size st).1 k).shaft_position = ShaftPos.center := by
  have hq : do_treadle_queue tu seq size treadle st k = st k := by
    simp [do_treadle_queue, hk, hu]
  have hcq : center_all_queue tu seq size st k
      = { st k with shaft_position := ShaftPos.center } := by
    simp [center_all_queue, hk, hu]
  have hcqm : (center_all_queue tu seq size st k).steps_to_move = 0 := by
    rw [hcq]
    exact hm
  have hqm : (do_treadle_queue tu seq size treadle st k).steps_to_move = 0 := by
    rw [hq]
    exact hm
  have hds1 : (do_steps (do_treadle_queue tu seq size treadle st)).1 k = st k := by
    rw [do_steps_preserve _ k hqm, hq]
  have hds2 : (do_steps (center_all_queue tu seq size st)).1 k
      = { st k with shaft_position := ShaftPos.center } := by
    rw [do_steps_preserve _ k hcqm, hcq]
  refine ⟨?_, ?_, ?_, ?_, ?_, ?_, ?_, ?_⟩
  · intro hmem
    rcases List.mem_cons.mp hmem with h1 | h2
    · exact StepEvent.noConfusion h1
    · exact drainFuel_no_step _ _ k hqm h2
  · intro hmem
    rcases List.mem_cons.mp hmem with h1 | h2
    · exact StepEvent.noConfusion h1
    · exact drainFuel_no_step _ _ k hcqm h2
  · simp only [do_treadle, if_pos hk]
    rw [hds1]
  · simp only [do_treadle, if_pos hk]
    rw [hds1]
  · simp only [do_treadle, if_pos hk]
  · show ((do_steps (center_all_queue tu seq size st)).1 k).steps_to_down = _
    rw [hds2]
  · show ((do_steps (center_all_queue tu seq size st)).1 k).steps_to_up = _
    rw [hds2]
  · show ((do_steps (center_all_queue tu seq size st)).1 k).shaft_position = _
    rw [hds2]

/-- C9 witness: the amended theorem applied at a concrete unused shaft. -/
theorem C9_unused_shaft_witness :
    StepEvent.stepMotor 0 ∉ (do_treadle unusedTieup [] 0 0 upState).2 ∧
    StepEvent.stepMotor 0 ∉ (center_all_shafts unusedTieup [] 0 upState).2 ∧
    ((do_treadle unusedTieup [] 0 0 upState).1 0).steps_to_down = (upState 0).steps_to_down := by
  have h := C9_unused_shaft_amended unusedTieup [] 0 0 0 upState
    (by decide) (by decide) (by decide)
  exact ⟨h.1, h.2.1, h.2.2.1⟩

/-! ## Claim C4: calibration and untouched shafts -/

theorem calib_loop_preserve (tu : Nat → Nat → Bool) (seq : List Nat) (size : Nat)
    (fuel : Nat) : ∀ (shaft : Nat) (st st' : Nat → ShaftStatus) (evs : List LoomEvent)
    (k : Nat),
    calib_loop tu seq size fuel shaft st evs = some st' →
    (k < shaft ∨ using_shaft tu seq size k = false) →
    (st k).steps_to_move = 0 → st' k = st k := by
  induction fuel with
  | zero =>
    intro shaft st st' evs k hrun _ _
    simp only [calib_loop] at hrun
    injection hrun with h
    rw [← h]
  | succ n ih =>
    intro shaft st st' evs k hrun hside hm
    have hside' : k < shaft + 1 ∨ using_shaft tu seq size k = false := by
      rcases hside with h | h
      · exact Or.inl (by omega)
      · exact Or.inr h
    simp only [calib_loop] at hrun
    split at hrun
    · rename_i hus
      have hkshaft : k ≠ shaft := by
        intro hkeq
        rcases hside with h | h
        · omega
        · rw [hkeq] at h
          rw [h] at hus
          exact Bool.noConfusion hus
      split at hrun
      · exact Option.noConfusion hrun
      · rename_i r evs1 hgc
        split at hrun
        · exact ih (shaft+1) st st' evs1 k hrun hside' hm
        · rename_i hr
          split at hrun
          · exact Option.noConfusion hrun
          · rename_i d evs2 hgd
            split at hrun
            · exact Option.noConfusion hrun
            · rename_i u evs3 hgu
              set st1 : Nat → ShaftStatus := fun j =>
                if j = shaft then
                  { st j with steps_to_down := -d, steps_to_move := -d }
                else st j with hst1
              have hst1k : st1 k = st k := by
                rw [hst1]
                simp [hkshaft]
              have hst1m : (st1 k).steps_to_move = 0 := by
                rw [hst1k]
                exact hm
              set st2 := (do_steps st1).1 with hst2
              have hst2k : st2 k = st k := by
                rw [hst2, do_steps_preserve st1 k hst1m, hst1k]
              have hst2m : (st2 k).steps_to_move = 0 := by
                rw [hst2k]
                exact hm
              set st3 : Nat → ShaftStatus := fun j =>
                if j = shaft then
                  { st2 j with steps_to_up := u, steps_to_move := -u }
                else st2 j with hst3
              have hst3k : st3 k = st k := by
                rw [hst3]
                simp only [if_neg hkshaft]
                exact hst2k
              have hst3m : (st3 k).steps_to_move = 0 := by
                rw [hst3k]
                exact hm
              have hst4m : ((do_steps st3).1 k).steps_to_move = 0 := by
                rw [do_steps_preserve st3 k hst3m, hst3k]
                exact hm
              have := ih (shaft+1) (do_steps st3).1 st' evs3 k hrun hside' hst4m
              rw [this, do_steps_preserve st3 k hst3m, hst3k]
    · rename_i hus
      exact ih (shaft+1) st st' evs k hrun hside' hm

/-- C4 counterexample: with no shaft in use and shaft 0 previously calibrated
300/280, running the calibration procedure resets shaft 0 to the nominal 448
— its previous calibration values are not kept. -/
theorem C4_calibration_counterexample :
    using_shaft unusedTieup [] 0 0 = false ∧
    (demoState 0).steps_to_down = 300 ∧
    do_calibration unusedTieup [] 0 demoState [] = some (calib_reset demoState) ∧
    (calib_reset demoState 0).steps_to_down = 448 ∧
    (calib_reset demoState 0).steps_to_down ≠ (demoState 0).steps_to_down := by
  exact ⟨by decide, by decide, rfl, by decide, by decide⟩

/-- C4 amended: `do_calibration` first resets every shaft to the nominal
default; after that reset, a shaft not in use is never touched again (it ends
with the nominal calibration, not its prior one), and a shaft whose center
phase is skipped with the abort event keeps its state as of its turn in the
loop. -/
theorem C4_calibration_amended (tu : Nat → Nat → Bool) (seq : List Nat) (size : Nat)
    (st st' : Nat → ShaftStatus) (evs : List LoomEvent) (k : Nat) (hk : k < NUM_SHAFTS) :
    (do_calibration tu seq size st evs = some st' →
      using_shaft tu seq size k = false →
      st' k = ⟨ShaftPos.center, NOMINAL_STEPS, NOMINAL_STEPS, 0⟩) ∧
    (∀ (fuel : Nat) (evs1 : List LoomEvent),
      using_shaft tu seq size k = true →
      get_calibration true evs 0 = some (999, evs1) →
      (st k).steps_to_move = 0 →
      calib_loop tu seq size (fuel+1) k st evs = some st' →
      st' k = st k) := by
  constructor
  · intro hrun hu
    have hm : (calib_reset st k).steps_to_move = 0 := by
      simp [calib_reset, hk]
    have := calib_loop_preserve tu seq size NUM_SHAFTS 0 (calib_reset st) st' evs k
      hrun (Or.inr hu) hm
    rw [this]
    simp [calib_reset, hk]
  · intro fuel evs1 hu hgc hm hrun
    simp only [calib_loop, if_pos hu, hgc, if_pos rfl] at hrun
    exact calib_loop_preserve tu seq size fuel (k+1) st st' evs1 k hrun
      (Or.inl (by omega)) hm

/-- C4 witness: both amended statements applied at concrete inputs — an
unused shaft after a full run, and a used shaft skipped with the abort
button. -/
theorem C4_calibration_witness :
    calib_reset demoState 0 = ⟨ShaftPos.center, NOMINAL_STEPS, NOMINAL_STEPS, 0⟩ ∧
    upState 7 = upState 7 := by
  constructor
  · exact (C4_calibration_amended unusedTieup [] 0 demoState (calib_reset demoState) [] 0
      (by decide)).1 rfl (by decide)
  · exact (C4_calibration_amended demoTieupAll [0] 1 upState upState
      [LoomEvent.ePBH] 7 (by decide)).2 0 [] (by decide) rfl (by decide) rfl

/-! ## Lemmas about the EEPROM primitives -/

theorem write_EEPROM_eq (bs : List Nat) : ∀ (mem : List Nat) (loc : Nat),
    loc + bs.length ≤ mem.length →
    write_EEPROM mem loc bs = mem.take loc ++ bs ++ mem.drop (loc + bs.length) := by
  induction bs with
  | nil =>
    intro mem loc h
    simp [write_EEPROM]
  | cons b rest ih =>
    intro mem loc h
    have hloc : loc < mem.length := by
      simp only [List.length_cons] at h
      omega
    show write_EEPROM (mem.set loc b) (loc+1) rest = _
    rw [ih (mem.set loc b) (loc+1) (by simp only [List.length_set, List.length_cons] at h ⊢; omega)]
    have htake : (mem.set loc b).take (loc+1) = mem.take loc ++ [b] := by
      rw [List.set_eq_take_cons_drop _ hloc, List.take_append_eq_append_take]
      simp [List.length_take, Nat.min_eq_left (Nat.le_of_lt hloc)]
    have hdrop : (mem.set loc b).drop (loc + 1 + rest.length) = mem.drop (loc + 1 + rest.length) := by
      rw [List.drop_set, if_pos (by omega)]
    rw [htake, hdrop]
    have harith : loc + 1 + rest.length = loc + (b :: rest).length := by
      simp only [List.length_cons]
      omega
    rw [harith]
    simp [List.append_assoc]

theorem write_EEPROM_length (bs : List Nat) (mem : List Nat) (loc : Nat)
    (h : loc + bs.length ≤ mem.length) :
    (write_EEPROM mem loc bs).length = mem.length := by
  rw [write_EEPROM_eq bs mem loc h]
  simp only [List.length_append, List.length_take, List.length_drop]
  omega

theorem read_EEPROM_eq (n : Nat) : ∀ (mem : List Nat) (loc : Nat),
    loc + n ≤ mem.length →
    read_EEPROM mem loc n = (mem.drop loc).take n := by
  induction n with
  | zero =>
    intro mem loc h
    simp [read_EEPROM]
  | succ m ih =>
    intro mem loc h
    have hloc : loc < mem.length := by omega
    show mem.getD loc 0 :: read_EEPROM mem (loc+1) m = _
    rw [ih mem (loc+1) (by omega), List.getD_eq_getElem _ _ hloc,
        List.drop_eq_getElem_cons hloc, List.take_succ_cons]

theorem read_after_write (mem : List Nat) (loc : Nat) (bs : List Nat)
    (h : loc + bs.length ≤ mem.length) :
    read_EEPROM (write_EEPROM mem loc bs) loc bs.length = bs := by
  have hlen : (write_EEPROM mem loc bs).length = mem.length := write_EEPROM_length bs mem loc h
  rw [read_EEPROM_eq _ _ _ (by omega), write_EEPROM_eq bs mem loc h]
  have htk : (mem.take loc).length = loc := by
    simp [List.length_take]
    omega
  rw [List.append_assoc, List.drop_left' htk, List.take_left' rfl]

theorem read_EEPROM_set_of_lt (n : Nat) : ∀ (mem : List Nat) (loc idx v : Nat),
    loc + n ≤ idx → read_EEPROM (mem.set idx v) loc n = read_EEPROM mem loc n := by
  induction n with
  | zero =>
    intro mem loc idx v h
    rfl
  | succ m ih =>
    intro mem loc idx v h
    show (mem.set idx v).getD loc 0 :: read_EEPROM (mem.set idx v) (loc+1) m
        = mem.getD loc 0 :: read_EEPROM mem (loc+1) m
    rw [ih mem (loc+1) idx v (by omega)]
    have : (mem.set idx v).getD loc 0 = mem.getD loc 0 := by
      simp only [List.getD_eq_getElem?_getD]
      rw [List.getElem?_set_ne (by omega)]
    rw [this]

theorem read_EEPROM_write_of_le (bs : List Nat) : ∀ (mem : List Nat) (loc n loc2 : Nat),
    loc + n ≤ loc2 →
    read_EEPROM (write_EEPROM mem loc2 bs) loc n = read_EEPROM mem loc n := by
  induction bs with
  | nil =>
    intro mem loc n loc2 h
    rfl
  | cons b rest ih =>
    intro mem loc n loc2 h
    show read_EEPROM (write_EEPROM (mem.set loc2 b) (loc2+1) rest) loc n = _
    rw [ih (mem.set loc2 b) loc n (loc2+1) (by omega),
        read_EEPROM_set_of_lt n mem loc loc2 b h]

theorem read_EEPROM_head (mem : List Nat) (loc n : Nat) :
    (read_EEPROM mem loc (n+1)).getD 0 0 = mem.getD loc 0 := rfl

/-! ## Claim C2: file-record validation failures -/

/-- C2 counterexample: a record with a valid "fil" tag but a wrong declared
size makes the load halt with an assertion diagnostic — a fatal outcome, not
the claimed non-fatal self-healing. -/
theorem C2_validation_counterexample :
    read_file_hdr memBadSize 0 = HdrResult.halt badFileSizeMsg := by decide

/-- C2 amended: only a bad magic tag is treated as "never written" and healed
with a synthesized blank header; with a matching tag, a declared-size mismatch
or a checksum mismatch is fatal (`assert` halt). -/
theorem C2_validation_amended (mem : List Nat) (fn : Nat) :
    ((read_EEPROM mem (file_loc fn) FILE_HDR_SIZE).take 4 ≠ filTag →
      read_file_hdr mem fn = HdrResult.blank
        ⟨filTag, (FILE_SIZE : Int),
         (read_EEPROM mem (file_loc fn) FILE_HDR_SIZE).getD 8 0,
         List.replicate (MAX_FILENAME + 1) 0⟩) ∧
    ((read_EEPROM mem (file_loc fn) FILE_HDR_SIZE).take 4 = filTag →
      parseInt32 (((read_EEPROM mem (file_loc fn) FILE_HDR_SIZE).drop 4).take 4)
          ≠ (FILE_SIZE : Int) →
      read_file_hdr mem fn = HdrResult.halt badFileSizeMsg) ∧
    ((read_EEPROM mem (file_loc fn) FILE_HDR_SIZE).take 4 = filTag →
      parseInt32 (((read_EEPROM mem (file_loc fn) FILE_HDR_SIZE).drop 4).take 4)
          = (FILE_SIZE : Int) →
      byte_sum (read_EEPROM mem (file_loc fn) FILE_HDR_SIZE) ≠ 0 →
      read_file_hdr mem fn = HdrResult.halt badFileChecksumMsg) := by
  set bytes := read_EEPROM mem (file_loc fn) FILE_HDR_SIZE with hbytes
  refine ⟨?_, ?_, ?_⟩
  · intro htag
    have hcond : ¬((parse_file_hdr bytes).id = filTag) := htag
    show classify_file_hdr bytes = _
    simp only [classify_file_hdr]
    rw [if_neg hcond]
    rfl
  · intro htag hsz
    have hcond : (parse_file_hdr bytes).id = filTag := htag
    have hcond2 : (parse_file_hdr bytes).size ≠ (FILE_SIZE : Int) := hsz
    show classify_file_hdr bytes = _
    simp only [classify_file_hdr]
    rw [if_pos hcond, if_pos hcond2]
  · intro htag hsz hcs
    have hcond : (parse_file_hdr bytes).id = filTag := htag
    have hcond2 : ¬((parse_file_hdr bytes).size ≠ (FILE_SIZE : Int)) := not_not_intro hsz
    show classify_file_hdr bytes = _
    simp only [classify_file_hdr]
    rw [if_pos hcond, if_neg hcond2, if_pos hcs]

/-- C2 witness: the amended theorem applied to an empty store (all reads
default to 0, so the tag does not match and the header is healed blank). -/
theorem C2_validation_witness :
    read_file_hdr [] 0 = HdrResult.blank
      ⟨filTag, (FILE_SIZE : Int), 0, List.replicate (MAX_FILENAME + 1) 0⟩ := by
  have h := (C2_validation_amended [] 0).1 (by decide)
  exact h.trans (by decide)

/-! ## Lemmas about the file-record byte image -/

theorem int32le_FILE_SIZE : int32le ((FILE_SIZE : Nat) : Int) = [251, 0, 0, 0] := by decide

theorem serialize_file_hdr_cons (c : Nat) (name : List Nat) :
    serialize_file_hdr ⟨filTag, (FILE_SIZE : Int), c, name⟩
      = 102 :: 105 :: 108 :: 0 :: 251 :: 0 :: 0 :: 0 :: c :: name := by
  simp [serialize_file_hdr, filTag, int32le_FILE_SIZE]

theorem parse_serialize_file_hdr (c : Nat) (name : List Nat) (hname : name.length = 15) :
    parse_file_hdr (serialize_file_hdr ⟨filTag, (FILE_SIZE : Int), c, name⟩)
      = ⟨filTag, (FILE_SIZE : Int), c, name⟩ := by
  rw [serialize_file_hdr_cons]
  unfold parse_file_hdr
  congr 1
  show List.take 15 name = name
  exact List.take_of_length_le (by omega)

theorem serialize_file_hdr_length (c : Nat) (name : List Nat) (hname : name.length = 15) :
    (serialize_file_hdr ⟨filTag, (FILE_SIZE : Int), c, name⟩).length = FILE_HDR_SIZE := by
  rw [serialize_file_hdr_cons]
  simp [hname, FILE_HDR_SIZE]

theorem serialize_file_hdr_sum (c : Nat) (name : List Nat) :
    (serialize_file_hdr ⟨filTag, (FILE_SIZE : Int), c, name⟩).sum = 566 + c + name.sum := by
  rw [serialize_file_hdr_cons]
  simp
  omega

theorem write_hdr_byte_sum (name : List Nat) :
    byte_sum (serialize_file_hdr ⟨filTag, (FILE_SIZE : Int),
      ((-((serialize_file_hdr ⟨filTag, (FILE_SIZE : Int), 0, name⟩).sum : Int)) % 256).toNat,
      name⟩) = 0 := by
  rw [byte_sum, serialize_file_hdr_sum, serialize_file_hdr_sum]
  omega

theorem map_serializeBool_roundtrip (tb : List Bool) :
    (tb.map serializeBool).map (fun b => b != 0) = tb := by
  rw [List.map_map]
  exact List.map_id'' (fun b => by cases b <;> rfl) tb

/-! ## Reading back a written file record -/

theorem write_file_reads (mem : List Nat) (fn : Nat) (name : List Nat)
    (tb : List Bool) (seq : List Nat) (hmem : mem.length = EEPROM_SIZE)
    (hfn : fn < MAX_FILES) (hname : name.length = MAX_FILENAME + 1)
    (htb : tb.length = TIEUP_SIZE) (hseq : seq.length = MAX_SEQUENCE) :
    read_EEPROM (write_file mem fn name tb seq) (file_loc fn) FILE_HDR_SIZE
        = serialize_file_hdr ⟨filTag, (FILE_SIZE : Int),
            ((-((serialize_file_hdr ⟨filTag, (FILE_SIZE : Int), 0, name⟩).sum : Int))
              % 256).toNat, name⟩ ∧
    read_EEPROM (write_file mem fn name tb seq) (file_loc fn + FILE_HDR_SIZE) TIEUP_SIZE
        = tb.map serializeBool ∧
    read_EEPROM (write_file mem fn name tb seq)
        (file_loc fn + FILE_HDR_SIZE + TIEUP_SIZE) MAX_SEQUENCE = seq := by
  have hname' : name.length = 15 := hname
  have hfn' : fn < 15 := hfn
  have hmem' : mem.length = 4096 := hmem
  have hfh : FILE_HDR_SIZE = 24 := rfl
  have hts : TIEUP_SIZE = 128 := rfl
  have hms : MAX_SEQUENCE = 99 := rfl
  set base := file_loc fn with hbase
  have hbase_le : base + 251 ≤ 4096 := by
    have h251 : FILE_SIZE = 251 := rfl
    rw [hbase]
    simp only [file_loc, CONFIG_SIZE, h251]
    omega
  set cs : Nat :=
    ((-((serialize_file_hdr ⟨filTag, (FILE_SIZE : Int), 0, name⟩).sum : Int)) % 256).toNat
    with hcs
  set hdrBytes := serialize_file_hdr ⟨filTag, (FILE_SIZE : Int), cs, name⟩ with hhb
  set tbBytes := tb.map serializeBool with htbb
  have hhb_len : hdrBytes.length = 24 := serialize_file_hdr_length cs name hname'
  have htb_len : tbBytes.length = 128 := by
    rw [htbb, List.length_map]
    exact htb
  set m1 := write_EEPROM mem base hdrBytes with hm1
  set m2 := write_EEPROM m1 (base + FILE_HDR_SIZE) tbBytes with hm2
  set m3 := write_EEPROM m2 (base + FILE_HDR_SIZE + TIEUP_SIZE) seq with hm3
  have hwf : write_file mem fn name tb seq = m3 := rfl
  have hm1_len : m1.length = 4096 := by
    rw [hm1, write_EEPROM_length hdrBytes mem base (by omega)]
    exact hmem'
  have hm2_len : m2.length = 4096 := by
    rw [hm2, write_EEPROM_length tbBytes m1 _ (by omega)]
    exact hm1_len
  have hm3_len : m3.length = 4096 := by
    rw [hm3, write_EEPROM_length seq m2 _ (by omega)]
    exact hm2_len
  have hdr_read : read_EEPROM m3 base FILE_HDR_SIZE = hdrBytes := by
    rw [hm3, read_EEPROM_write_of_le seq m2 base FILE_HDR_SIZE _ (by omega)]
    rw [hm2, read_EEPROM_write_of_le tbBytes m1 base FILE_HDR_SIZE _ (by omega)]
    have := read_after_write mem base hdrBytes (by omega)
    rw [hhb_len] at this
    rw [hm1]
    have hfh24 : FILE_HDR_SIZE = 24 := rfl
    rw [hfh24]
    exact this
  have tb_read : read_EEPROM m3 (base + FILE_HDR_SIZE) TIEUP_SIZE = tbBytes := by
    rw [hm3, read_EEPROM_write_of_le seq m2 (base + FILE_HDR_SIZE) TIEUP_SIZE _ (by omega)]
    have := read_after_write m1 (base + FILE_HDR_SIZE) tbBytes (by omega)
    rw [htb_len] at this
    rw [hm2, hts]
    exact this
  have sq_read : read_EEPROM m3 (base + FILE_HDR_SIZE + TIEUP_SIZE) MAX_SEQUENCE = seq := by
    have := read_after_write m2 (base + FILE_HDR_SIZE + TIEUP_SIZE) seq (by omega)
    rw [hseq] at this
    rw [hm3, hms]
    exact this
  rw [hwf]
  exact ⟨hdr_read, tb_read, sq_read⟩

theorem read_file_hdr_write_file (mem : List Nat) (fn : Nat) (name : List Nat)
    (tb : List Bool) (seq : List Nat) (hmem : mem.length = EEPROM_SIZE)
    (hfn : fn < MAX_FILES) (hname : name.length = MAX_FILENAME + 1)
    (htb : tb.length = TIEUP_SIZE) (hseq : seq.length = MAX_SEQUENCE)
    (hcanon : cleanup_filename name = name) :
    read_file_hdr (write_file mem fn name tb seq) fn
      = HdrResult.ok ⟨filTag, (FILE_SIZE : Int),
          ((-((serialize_file_hdr ⟨filTag, (FILE_SIZE : Int), 0, name⟩).sum : Int))
            % 256).toNat, name⟩ := by
  have hr := (write_file_reads mem fn name tb seq hmem hfn hname htb hseq).1
  set cs : Nat :=
    ((-((serialize_file_hdr ⟨filTag, (FILE_SIZE : Int), 0, name⟩).sum : Int)) % 256).toNat
    with hcs
  have hparse := parse_serialize_file_hdr cs name hname
  have hbs : byte_sum (serialize_file_hdr ⟨filTag, (FILE_SIZE : Int), cs, name⟩) = 0 :=
    write_hdr_byte_sum name
  show classify_file_hdr (read_EEPROM (write_file mem fn name tb seq) (file_loc fn)
    FILE_HDR_SIZE) = _
  rw [hr]
  simp [classify_file_hdr, hparse, hbs, hcanon]

theorem read_file_data_write_file (mem : List Nat) (fn : Nat) (name : List Nat)
    (tb : List Bool) (seq : List Nat) (hmem : mem.length = EEPROM_SIZE)
    (hfn : fn < MAX_FILES) (hname : name.length = MAX_FILENAME + 1)
    (htb : tb.length = TIEUP_SIZE) (hseq : seq.length = MAX_SEQUENCE) :
    read_file_data (write_file mem fn name tb seq) fn
      = (tb, (cleanup_treadle_sequence seq).1, (cleanup_treadle_sequence seq).2) := by
  obtain ⟨-, htbr, hsqr⟩ := write_file_reads mem fn name tb seq hmem hfn hname htb hseq
  show ((read_EEPROM (write_file mem fn name tb seq) (file_loc fn + FILE_HDR_SIZE)
          TIEUP_SIZE).map (fun b => b != 0),
        (cleanup_treadle_sequence (read_EEPROM (write_file mem fn name tb seq)
          (file_loc fn + FILE_HDR_SIZE + TIEUP_SIZE) MAX_SEQUENCE)).1,
        (cleanup_treadle_sequence (read_EEPROM (write_file mem fn name tb seq)
          (file_loc fn + FILE_HDR_SIZE + TIEUP_SIZE) MAX_SEQUENCE)).2) = _
  rw [htbr, hsqr, map_serializeBool_roundtrip]

/-! ## Claim C8: save/load round trip -/

/-- C8 counterexample: a valid pattern file whose sequence buffer is not a
fixed point of compaction (it starts with an unused slot) does not survive
the round trip: loading compacts the sequence, so the loaded buffer differs
from the saved one. -/
theorem C8_round_trip_counterexample :
    seqBad.length = MAX_SEQUENCE ∧
    (read_file_data (write_file memZero 0 demoName demoTieupBytes seqBad) 0).2.1
      ≠ seqBad := by
  constructor
  · decide
  · rw [read_file_data_write_file memZero 0 demoName demoTieupBytes seqBad
      (by simp [memZero]) (by decide) (by decide) (by simp [demoTieupBytes]) (by decide)]
    decide

/-- C8 amended: for a pattern file whose name is canonical (fixed under
`cleanup_filename`) and whose sequence buffer is compacted (fixed under
`cleanup_treadle_sequence`), saving and loading returns exactly the saved
name, tie-up matrix and treadle sequence. -/
theorem C8_round_trip_amended (mem : List Nat) (fn : Nat) (name : List Nat)
    (tb : List Bool) (seq : List Nat) (hmem : mem.length = EEPROM_SIZE)
    (hfn : fn < MAX_FILES) (hname : name.length = MAX_FILENAME + 1)
    (htb : tb.length = TIEUP_SIZE) (hseq : seq.length = MAX_SEQUENCE)
    (hcanon : cleanup_filename name = name)
    (hcompact : (cleanup_treadle_sequence seq).1 = seq) :
    (∃ c, read_file_hdr (write_file mem fn name tb seq) fn
        = HdrResult.ok ⟨filTag, (FILE_SIZE : Int), c, name⟩) ∧
    read_file_data (write_file mem fn name tb seq) fn
        = (tb, seq, (cleanup_treadle_sequence seq).2) := by
  constructor
  · exact ⟨_, read_file_hdr_write_file mem fn name tb seq hmem hfn hname htb hseq hcanon⟩
  · rw [read_file_data_write_file mem fn name tb seq hmem hfn hname htb hseq, hcompact]

/-- C8 witness: the amended round trip applied to a concrete canonical
pattern file. -/
theorem C8_round_trip_witness :
    read_file_data (write_file memZero 0 demoName demoTieupBytes seqGood) 0
      = (demoTieupBytes, seqGood, (cleanup_treadle_sequence seqGood).2) := by
  exact (C8_round_trip_amended memZero 0 demoName demoTieupBytes seqGood (by simp [memZero])
    (by decide) (by decide) (by simp [demoTieupBytes]) (by decide) (by decide) (by decide)).2

/-! ## Lemmas about single-byte changes to a header -/

theorem getD_set_self (l : List Nat) (k v : Nat) (hk : k < l.length) :
    (l.set k v).getD k 0 = v := by
  rw [List.getD_eq_getElem _ _ (by simpa using hk)]
  exact List.getElem_set_self _

theorem set_ne_self (l : List Nat) (k v : Nat) (hk : k < l.length)
    (hv : v ≠ l.getD k 0) : l.set k v ≠ l := by
  intro heq
  have h1 := getD_set_self l k v hk
  rw [heq] at h1
  exact hv h1.symm

theorem getD_drop (l : List Nat) (n i : Nat) :
    (l.drop n).getD i 0 = l.getD (n+i) 0 := by
  simp only [List.getD_eq_getElem?_getD]
  rw [List.getElem?_drop]

theorem parseInt32_quad (a b c d : Nat) :
    parseInt32 [a, b, c, d]
      = if a + 256 * b + 65536 * c + 16777216 * d < 2147483648
        then ((a + 256 * b + 65536 * c + 16777216 * d : Nat) : Int)
        else ((a + 256 * b + 65536 * c + 16777216 * d : Nat) : Int) - 4294967296 := rfl

theorem parseInt32_set_ne (bs : List Nat) (j v : Nat) (hlen : bs.length = 4)
    (hb : ∀ x ∈ bs, x < 256) (hv : v < 256)
    (hj : j < 4) (hne : v ≠ bs.getD j 0) :
    parseInt32 (bs.set j v) ≠ parseInt32 bs := by
  obtain ⟨a, b, c, d, hnil⟩ : ∃ a b c d, bs = [a, b, c, d] := by
    match bs, hlen with
    | [a, b, c, d], _ => exact ⟨a, b, c, d, rfl⟩
  subst hnil
  have ha : a < 256 := hb a (by simp)
  have hbb : b < 256 := hb b (by simp)
  have hcc : c < 256 := hb c (by simp)
  have hdd : d < 256 := hb d (by simp)
  interval_cases j
  · have hne' : v ≠ a := hne
    show parseInt32 [v, b, c, d] ≠ parseInt32 [a, b, c, d]
    rw [parseInt32_quad, parseInt32_quad]
    split_ifs <;> omega
  · have hne' : v ≠ b := hne
    show parseInt32 [a, v, c, d] ≠ parseInt32 [a, b, c, d]
    rw [parseInt32_quad, parseInt32_quad]
    split_ifs <;> omega
  · have hne' : v ≠ c := hne
    show parseInt32 [a, b, v, d] ≠ parseInt32 [a, b, c, d]
    rw [parseInt32_quad, parseInt32_quad]
    split_ifs <;> omega
  · have hne' : v ≠ d := hne
    show parseInt32 [a, b, c, v] ≠ parseInt32 [a, b, c, d]
    rw [parseInt32_quad, parseInt32_quad]
    split_ifs <;> omega

theorem sum_set_add (l : List Nat) (k v : Nat) (hk : k < l.length) :
    (l.set k v).sum + l.getD k 0 = l.sum + v := by
  have hdecomp : l = l.take k ++ l[k] :: l.drop (k+1) := by
    conv_lhs => rw [← List.take_append_drop k l]
    rw [List.drop_eq_getElem_cons hk]
  have hl : l.sum = (l.take k).sum + l[k] + (l.drop (k+1)).sum := by
    calc l.sum = (l.take k ++ l[k] :: l.drop (k+1)).sum := by rw [← hdecomp]
    _ = (l.take k).sum + l[k] + (l.drop (k+1)).sum := by
        rw [Nat.sum_append, List.sum_cons]
        omega
  have hset : (l.set k v).sum = (l.take k).sum + v + (l.drop (k+1)).sum := by
    rw [List.set_eq_take_cons_drop _ hk, Nat.sum_append, List.sum_cons]
    omega
  rw [hset, hl, List.getD_eq_getElem _ _ hk]
  omega

theorem classify_ok_conditions (bytes : List Nat) (h : FileHdr)
    (hok : classify_file_hdr bytes = HdrResult.ok h) :
    bytes.take 4 = filTag ∧ parseInt32 ((bytes.drop 4).take 4) = (FILE_SIZE : Int) ∧
    byte_sum bytes = 0 := by
  by_cases h1 : (parse_file_hdr bytes).id = filTag
  · by_cases h2 : (parse_file_hdr bytes).size = (FILE_SIZE : Int)
    · by_cases h3 : byte_sum bytes = 0
      · exact ⟨h1, h2, h3⟩
      · simp [classify_file_hdr, h1, h2, h3] at hok
    · simp [classify_file_hdr, h1, h2] at hok
  · simp [classify_file_hdr, h1] at hok

theorem classify_set_not_ok (bytes : List Nat) (h : FileHdr) (k v : Nat)
    (hlen : bytes.length = FILE_HDR_SIZE) (hbytes : ∀ b ∈ bytes, b < 256)
    (hok : classify_file_hdr bytes = HdrResult.ok h)
    (hk : k < FILE_HDR_SIZE) (hv : v < 256) (hne : v ≠ bytes.getD k 0) :
    (classify_file_hdr (bytes.set k v)).isOk = false := by
  obtain ⟨htag, hsz, hcs⟩ := classify_ok_conditions bytes h hok
  have hlen24 : bytes.length = 24 := hlen
  have hk24 : k < 24 := hk
  by_cases hk4 : k < 4
  · -- tag byte changed: record treated as blank
    have hgd : bytes.getD k 0 = filTag.getD k 0 := by
      rw [← htag, getD_take_of_lt bytes 4 k 0 hk4]
    have hid : (bytes.set k v).take 4 = filTag.set k v := by
      rw [List.set_take, htag]
    have hne4 : filTag.set k v ≠ filTag := by
      apply set_ne_self filTag k v (by simp [filTag]; omega)
      rw [← hgd]
      exact hne
    have hcond : ¬((parse_file_hdr (bytes.set k v)).id = filTag) := by
      show ¬((bytes.set k v).take 4 = filTag)
      rw [hid]
      exact hne4
    simp [classify_file_hdr, hcond, HdrResult.isOk]
  · have hid : (bytes.set k v).take 4 = filTag := by
      rw [List.set_take, List.set_eq_of_length_le, htag]
      simp [List.length_take]
      omega
    have hcond : (parse_file_hdr (bytes.set k v)).id = filTag := hid
    by_cases hk8 : k < 8
    · -- size byte changed: assert halt
      have hdt : ((bytes.set k v).drop 4).take 4 = ((bytes.drop 4).take 4).set (k-4) v := by
        rw [List.drop_set, if_neg (by omega), List.set_take]
      have hs4len : ((bytes.drop 4).take 4).length = 4 := by
        simp [List.length_take, List.length_drop, hlen24]
      have hgd : ((bytes.drop 4).take 4).getD (k-4) 0 = bytes.getD k 0 := by
        rw [getD_take_of_lt _ 4 _ 0 (by omega), getD_drop]
        congr 1
        omega
      have hs4b : ∀ x ∈ (bytes.drop 4).take 4, x < 256 := by
        intro x hx
        exact hbytes x (List.mem_of_mem_drop (List.mem_of_mem_take hx))
      have hszne : parseInt32 (((bytes.set k v).drop 4).take 4) ≠ (FILE_SIZE : Int) := by
        rw [hdt, ← hsz]
        apply parseInt32_set_ne _ _ _ hs4len hs4b hv (by omega)
        rw [hgd]
        exact hne
      have hcond2 : (parse_file_hdr (bytes.set k v)).size ≠ (FILE_SIZE : Int) := hszne
      simp [classify_file_hdr, hcond, hcond2, HdrResult.isOk]
    · -- checksum or name byte changed: checksum assert halt
      have hdt : ((bytes.set k v).drop 4).take 4 = (bytes.drop 4).take 4 := by
        rw [List.drop_set, if_neg (by omega), List.set_take, List.set_eq_of_length_le]
        simp [List.length_take, List.length_drop, hlen24]
        omega
      have hcond2 : (parse_file_hdr (bytes.set k v)).size = (FILE_SIZE : Int) := by
        show parseInt32 (((bytes.set k v).drop 4).take 4) = (FILE_SIZE : Int)
        rw [hdt]
        exact hsz
      have hold : bytes.getD k 0 < 256 := by
        apply hbytes
        rw [List.getD_eq_getElem _ _ (by omega)]
        exact List.getElem_mem _
      have hbs' : byte_sum (bytes.set k v) ≠ 0 := by
        have hadd := sum_set_add bytes k v (by omega)
        have hcs0 : bytes.sum % 256 = 0 := hcs
        show (bytes.set k v).sum % 256 ≠ 0
        omega
      simp [classify_file_hdr, hcond, hcond2, hbs', HdrResult.isOk]

/-! ## Claim C3: the checksum and what it protects -/

/-- C3 counterexample: flip the first tie-up byte of a freshly written record
(from 0 to 1) — a single-byte change strictly inside the stored file record —
and the subsequent load still validates the record (no corruption reported),
because the checksum covers only the header. -/
theorem C3_checksum_counterexample :
    (write_file memZero 0 demoName demoTieupBytes seqGood).getD
        (file_loc 0 + FILE_HDR_SIZE) 0 = 0 ∧
    (read_file_hdr ((write_file memZero 0 demoName demoTieupBytes seqGood).set
        (file_loc 0 + FILE_HDR_SIZE) 1) 0).isOk = true := by
  obtain ⟨hhdr, htbr, hsqr⟩ := write_file_reads memZero 0 demoName demoTieupBytes seqGood
    (by simp [memZero]) (by decide) (by decide) (by simp [demoTieupBytes]) (by decide)
  constructor
  · have h0 := read_EEPROM_head (write_file memZero 0 demoName demoTieupBytes seqGood)
      (file_loc 0 + FILE_HDR_SIZE) 127
    rw [show (127 : Nat) + 1 = TIEUP_SIZE from rfl, htbr] at h0
    rw [← h0]
    decide
  · have hset : read_file_hdr ((write_file memZero 0 demoName demoTieupBytes seqGood).set
        (file_loc 0 + FILE_HDR_SIZE) 1) 0
        = read_file_hdr (write_file memZero 0 demoName demoTieupBytes seqGood) 0 := by
      show classify_file_hdr (read_EEPROM _ (file_loc 0) FILE_HDR_SIZE)
          = classify_file_hdr (read_EEPROM _ (file_loc 0) FILE_HDR_SIZE)
      rw [read_EEPROM_set_of_lt FILE_HDR_SIZE _ (file_loc 0) (file_loc 0 + FILE_HDR_SIZE) 1
        (Nat.le_refl _)]
    rw [hset, read_file_hdr_write_file memZero 0 demoName demoTieupBytes seqGood
      (by simp [memZero]) (by decide) (by decide) (by simp [demoTieupBytes]) (by decide)
      (by decide)]
    rfl

/-- C3 amended: the additive checksum is computed (with the field zeroed, then
negated) over the 24-byte file header only — tag, size, checksum and name —
so the stored header bytes sum to zero mod 256; flipping any single byte of
the stored header makes the subsequent load fail validation, while flipping a
byte anywhere past the header leaves the load result unchanged (undetected). -/
theorem C3_checksum_amended (mem : List Nat) (fn : Nat) (name : List Nat)
    (tb : List Bool) (seq : List Nat) (hmem : mem.length = EEPROM_SIZE)
    (hfn : fn < MAX_FILES) (hname : name.length = MAX_FILENAME + 1)
    (htb : tb.length = TIEUP_SIZE) (hseq : seq.length = MAX_SEQUENCE) :
    byte_sum (read_EEPROM (write_file mem fn name tb seq) (file_loc fn) FILE_HDR_SIZE) = 0 ∧
    (∀ (bytes : List Nat) (h : FileHdr) (k v : Nat),
      bytes.length = FILE_HDR_SIZE → (∀ b ∈ bytes, b < 256) →
      classify_file_hdr bytes = HdrResult.ok h →
      k < FILE_HDR_SIZE → v < 256 → v ≠ bytes.getD k 0 →
      (classify_file_hdr (bytes.set k v)).isOk = false) ∧
    (∀ (mem2 : List Nat) (idx v : Nat), file_loc fn + FILE_HDR_SIZE ≤ idx →
      read_file_hdr (mem2.set idx v) fn = read_file_hdr mem2 fn) := by
  refine ⟨?_, ?_, ?_⟩
  · have hr := (write_file_reads mem fn name tb seq hmem hfn hname htb hseq).1
    rw [hr]
    exact write_hdr_byte_sum name
  · intro bytes h k v h1 h2 h3 h4 h5 h6
    exact classify_set_not_ok bytes h k v h1 h2 h3 h4 h5 h6
  · intro mem2 idx v hidx
    show classify_file_hdr (read_EEPROM _ (file_loc fn) FILE_HDR_SIZE)
        = classify_file_hdr (read_EEPROM _ (file_loc fn) FILE_HDR_SIZE)
    rw [read_EEPROM_set_of_lt FILE_HDR_SIZE mem2 (file_loc fn) idx v hidx]

/-- C3 witness: the amended theorem applied at concrete inputs — a freshly
written record's header sums to zero; flipping name byte 9 of a concrete
valid header is caught; flipping a byte past the header leaves the load
unchanged. -/
theorem C3_checksum_witness :
    byte_sum (read_EEPROM (write_file memZero 0 demoName demoTieupBytes seqGood)
      (file_loc 0) FILE_HDR_SIZE) = 0 ∧
    (classify_file_hdr (demoHdrBytes.set 9 65)).isOk = false ∧
    read_file_hdr (memBadSize.set 500 7) 0 = read_file_hdr memBadSize 0 := by
  have h := C3_checksum_amended memZero 0 demoName demoTieupBytes seqGood
    (by simp [memZero]) (by decide) (by decide) (by simp [demoTieupBytes]) (by decide)
  refine ⟨h.1, ?_, h.2.2 memBadSize 500 7 (by decide)⟩
  exact h.2.1 demoHdrBytes ⟨filTag, (FILE_SIZE : Int), 202, List.replicate 15 0⟩ 9 65
    (by decide) (by decide) (by decide) (by decide) (by decide) (by decide)

/-! ## Claim C10: weaving-mode backward navigation -/

/-- C10: stepping backward from position 0 does not wrap to
`sequence_size - 1`: `tr_seq_pos` is an unsigned byte, so the decrement wraps
to 255, the `< 0` wrap test never fires, and the resulting position is out of
bounds for the treadle sequence (255 is not less than the sequence size, and
not even less than MAX_SEQUENCE = 99).  The forward direction wraps as
intended, showing the off-by-type nature of the backward branch. -/
theorem C10_weave_back_bug :
    weave_back_position 0 2 = 255 ∧
    ¬(weave_back_position 0 2 < 2) ∧
    MAX_SEQUENCE ≤ weave_back_position 0 2 ∧
    weave_forward_position 1 2 = 0 := by
  exact ⟨by decide, by decide, by decide, by decide⟩

end Loom
